import Mathlib

/-!
Verification of the bkmr repository's LSP test-client engine, as implemented
in the Python debug scripts (src/scripts/lsp/test_lsp_client.py,
src/scripts/lsp/get_snippet.py, src/scripts/lsp/debug_lsp_commands.py,
src/scripts/lsp/simple_test.py).

The embedding works at the level the scripts do: JSON values as exchanged by
json.dumps / json.loads, character streams for the stdio pipes (the scripts
open the child process in text mode, so Python presents the pipes as
character sequences with universal-newline translation on read), and explicit
state for the request-id counter and the child process.
-/

namespace BkmrLsp

/-- A JSON value as handled by the scripts: the values produced by Python's
json.loads and accepted by json.dumps on the messages these clients exchange
(null, booleans, integers, strings, arrays, objects; the scripts never use
floats). Strings are Python strings, i.e. sequences of Unicode code points,
modelled as `List Char`; objects keep their key/value pairs in insertion
order, exactly as a Python dict does. -/
inductive Json where
  | null
  | bool (b : Bool)
  | int (n : Int)
  | str (s : List Char)
  | arr (xs : List Json)
  | obj (kvs : List (List Char × Json))

/-! ## The serializer: a model of json.dumps with its default options
(ensure_ascii=True, separators (", ", ": "), no indent, no key sorting). -/

/-- Lowercase hexadecimal digit character, as used by json.dumps for the
backslash-u escapes it emits. -/
def hexDigitChar (n : Nat) : Char :=
  if n < 10 then Char.ofNat (48 + n) else Char.ofNat (87 + n)

/-- Four-digit lowercase hexadecimal rendering of `n < 0x10000`, the payload of
a backslash-u escape. -/
def toHex4 (n : Nat) : List Char :=
  [hexDigitChar (n / 4096 % 16), hexDigitChar (n / 256 % 16),
   hexDigitChar (n / 16 % 16), hexDigitChar (n % 16)]

/-- Decimal digits of a natural number, most significant first, as Python's
str() renders a non-negative int. -/
def natDigits (n : Nat) : List Char :=
  if n < 10 then [Char.ofNat (48 + n)]
  else natDigits (n / 10) ++ [Char.ofNat (48 + n % 10)]
decreasing_by omega

/-- Decimal rendering of a Python int (sign, then digits), as json.dumps and
str() print it. -/
def intDigits : Int → List Char
  | .ofNat n => natDigits n
  | .negSucc m => '-' :: natDigits (m + 1)

/-- How json.dumps with ensure_ascii=True renders one character of a string:
backslash and quote get two-character escapes, the five control characters
with shorthand escapes use them, printable ASCII (0x20 to 0x7e) is literal,
every other code point becomes backslash-u escapes (a surrogate pair for
code points above 0xffff). -/
def escapeChar (c : Char) : List Char :=
  if c = '\\' then ['\\', '\\']
  else if c = '"' then ['\\', '"']
  else if c.toNat = 8 then ['\\', 'b']
  else if c.toNat = 9 then ['\\', 't']
  else if c.toNat = 10 then ['\\', 'n']
  else if c.toNat = 12 then ['\\', 'f']
  else if c.toNat = 13 then ['\\', 'r']
  else if 32 ≤ c.toNat ∧ c.toNat ≤ 126 then [c]
  else if c.toNat < 65536 then '\\' :: 'u' :: toHex4 c.toNat
  else
    '\\' :: 'u' :: toHex4 (55296 + (c.toNat - 65536) / 1024) ++
      '\\' :: 'u' :: toHex4 (56320 + (c.toNat - 65536) % 1024)

/-- The escaped body of a JSON string (without the surrounding quotes). -/
def escBody (s : List Char) : List Char := s.flatMap escapeChar

/-- An object key as json.dumps emits it: quoted escaped key, colon, space
(the default ": " item separator). -/
def keyLead (k : List Char) : List Char :=
  '"' :: escBody k ++ '"' :: ':' :: ' ' :: []

mutual

/-- The characters json.dumps produces for a value (default options). -/
def dumpsChars : Json → List Char
  | .null => "null".data
  | .bool true => "true".data
  | .bool false => "false".data
  | .int n => intDigits n
  | .str s => '"' :: escBody s ++ ['"']
  | .arr xs => '[' :: dumpsElems xs ++ [']']
  | .obj kvs => '{' :: dumpsMembers kvs ++ ['}']

/-- Array elements joined by ", " (the default element separator). -/
def dumpsElems : List Json → List Char
  | [] => []
  | [x] => dumpsChars x
  | x :: y :: tl => dumpsChars x ++ ',' :: ' ' :: dumpsElems (y :: tl)

/-- Object members `"key": value` joined by ", ". -/
def dumpsMembers : List (List Char × Json) → List Char
  | [] => []
  | [(k, v)] => keyLead k ++ dumpsChars v
  | (k, v) :: m :: tl => keyLead k ++ dumpsChars v ++ ',' :: ' ' :: dumpsMembers (m :: tl)

end

/-! ## The parser: a model of json.loads on the grammar json.dumps emits
(the scripts only ever call json.loads on server output framed the same way;
numbers are restricted to integers — the fractional/exponent forms, which
json.dumps of these messages never produces, are rejected rather than turned
into floats; a lone surrogate escape, which no dump of a Python string
contains, is likewise rejected since a Lean Char cannot hold it). -/

/-- JSON whitespace, the characters json.loads skips between tokens. -/
def isJsonWs (c : Char) : Bool := c = ' ' ∨ c = '\t' ∨ c = '\n' ∨ c = '\r'

/-- Skip JSON whitespace. -/
def skipWs : List Char → List Char
  | c :: cs => if isJsonWs c then skipWs cs else c :: cs
  | [] => []

/-- Decimal digit character. -/
def isDigitChar (c : Char) : Bool := 48 ≤ c.toNat ∧ c.toNat ≤ 57

/-- Value of a decimal digit character. -/
def digitVal (c : Char) : Nat := c.toNat - 48

/-- Value of a hexadecimal digit character (json.loads accepts both cases). -/
def hexVal (c : Char) : Option Nat :=
  if 48 ≤ c.toNat ∧ c.toNat ≤ 57 then some (c.toNat - 48)
  else if 97 ≤ c.toNat ∧ c.toNat ≤ 102 then some (c.toNat - 87)
  else if 65 ≤ c.toNat ∧ c.toNat ≤ 70 then some (c.toNat - 55)
  else none

/-- Read the four hexadecimal digits of a backslash-u escape. -/
def parseHex4 : List Char → Option (Nat × List Char)
  | a :: b :: c :: d :: rest => do
    let x ← hexVal a
    let y ← hexVal b
    let z ← hexVal c
    let w ← hexVal d
    some (((x * 16 + y) * 16 + z) * 16 + w, rest)
  | _ => none

/-- The single-character escapes json.loads accepts after a backslash. -/
def unescape : Char → Option Char
  | '"' => some '"'
  | '\\' => some '\\'
  | '/' => some '/'
  | 'b' => some (Char.ofNat 8)
  | 'f' => some (Char.ofNat 12)
  | 'n' => some '\n'
  | 'r' => some (Char.ofNat 13)
  | 't' => some '\t'
  | _ => none

/-- Parse a string body after the opening quote, handling escapes and
surrogate pairs the way json.loads does; strict mode, so raw control
characters are rejected. The fuel only needs to exceed the number of decoded
characters; callers pass the remaining input length plus one. -/
def parseStringBody : Nat → List Char → Option (List Char × List Char)
  | 0, _ => none
  | _ + 1, [] => none
  | fuel + 1, c :: cs =>
    if c = '"' then some ([], cs)
    else if c = '\\' then
      match cs with
      | [] => none
      | e :: cs2 =>
        if e = 'u' then
          match parseHex4 cs2 with
          | none => none
          | some (h, cs3) =>
            if 55296 ≤ h ∧ h ≤ 56319 then
              match cs3 with
              | '\\' :: 'u' :: cs4 =>
                match parseHex4 cs4 with
                | none => none
                | some (l, cs5) =>
                  if 56320 ≤ l ∧ l ≤ 57343 then
                    (parseStringBody fuel cs5).map
                      (fun p => (Char.ofNat (65536 + (h - 55296) * 1024 + (l - 56320)) :: p.1, p.2))
                  else none
              | _ => none
            else if 56320 ≤ h ∧ h ≤ 57343 then none
            else (parseStringBody fuel cs3).map (fun p => (Char.ofNat h :: p.1, p.2))
        else
          match unescape e with
          | some ch => (parseStringBody fuel cs2).map (fun p => (ch :: p.1, p.2))
          | none => none
    else if c.toNat < 32 then none
    else (parseStringBody fuel cs).map (fun p => (c :: p.1, p.2))

/-- Accumulate a run of decimal digits, as the number scanner does. -/
def parseNatAux (acc : Nat) : List Char → Nat × List Char
  | c :: cs => if isDigitChar c then parseNatAux (acc * 10 + digitVal c) cs else (acc, c :: cs)
  | [] => (acc, [])

/-- Parse an integer literal: optional minus sign, then digits. -/
def parseIntTok : List Char → Option (Int × List Char)
  | [] => none
  | c :: cs =>
    if c = '-' then
      match cs with
      | [] => none
      | d :: ds =>
        if isDigitChar d then
          let p := parseNatAux (digitVal d) ds
          some (-(p.1 : Int), p.2)
        else none
    else if isDigitChar c then
      let p := parseNatAux (digitVal c) cs
      some ((p.1 : Int), p.2)
    else none

mutual

/-- Recursive-descent value parser mirroring json.loads: skip whitespace,
dispatch on the first character. The fuel bounds recursion depth across
values; one unit is spent per array/object nesting step. -/
def parseValue : Nat → List Char → Option (Json × List Char)
  | 0, _ => none
  | fuel + 1, cs =>
    match skipWs cs with
    | [] => none
    | c :: cs1 =>
      if c = '"' then (parseStringBody (cs1.length + 1) cs1).map (fun p => (.str p.1, p.2))
      else if c = '[' then
        match skipWs cs1 with
        | ']' :: r => some (.arr [], r)
        | cs2 => (parseArrayItems fuel cs2).map (fun p => (.arr p.1, p.2))
      else if c = '{' then
        match skipWs cs1 with
        | '}' :: r => some (.obj [], r)
        | cs2 => (parseObjItems fuel cs2).map (fun p => (.obj p.1, p.2))
      else if c = 'n' then
        match cs1 with
        | 'u' :: 'l' :: 'l' :: r => some (.null, r)
        | _ => none
      else if c = 't' then
        match cs1 with
        | 'r' :: 'u' :: 'e' :: r => some (.bool true, r)
        | _ => none
      else if c = 'f' then
        match cs1 with
        | 'a' :: 'l' :: 's' :: 'e' :: r => some (.bool false, r)
        | _ => none
      else (parseIntTok (c :: cs1)).map (fun p => (.int p.1, p.2))

/-- Elements of a non-empty array: value, then either a closing bracket or a
comma and more elements. -/
def parseArrayItems : Nat → List Char → Option (List Json × List Char)
  | 0, _ => none
  | fuel + 1, cs =>
    match parseValue fuel cs with
    | none => none
    | some (v, r1) =>
      match skipWs r1 with
      | ']' :: r2 => some ([v], r2)
      | ',' :: r2 => (parseArrayItems fuel r2).map (fun p => (v :: p.1, p.2))
      | _ => none

/-- Members of a non-empty object: quoted key, colon, value, then either a
closing brace or a comma, whitespace, and more members. -/
def parseObjItems : Nat → List Char → Option (List (List Char × Json) × List Char)
  | 0, _ => none
  | fuel + 1, cs =>
    match cs with
    | '"' :: cs1 =>
      match parseStringBody (cs1.length + 1) cs1 with
      | none => none
      | some (k, r1) =>
        match skipWs r1 with
        | ':' :: r2 =>
          match parseValue fuel r2 with
          | none => none
          | some (v, r3) =>
            match skipWs r3 with
            | '}' :: r4 => some ([(k, v)], r4)
            | ',' :: r4 => (parseObjItems fuel (skipWs r4)).map (fun p => ((k, v) :: p.1, p.2))
            | _ => none
        | _ => none
    | _ => none

end

/-- Model of json.loads: parse one value and require only whitespace after it.
The fuel (input length plus one) always suffices, since every nesting level of
a value occupies at least one input character. -/
def loads (cs : List Char) : Option Json :=
  match parseValue (cs.length + 1) cs with
  | some (j, r) => if skipWs r = [] then some j else none
  | none => none

/-! ## Framing: send_message and read_message
(test_lsp_client.py lines 117-193; get_snippet.py and debug_lsp_commands.py
duplicate the same logic inside send_request / _read_message).

The pipes are opened with text=True, so writes and reads are character
streams; on Linux writing translates nothing, while reading applies
universal-newline translation (CRLF and lone CR become LF) before the
script's readline / read calls see the data. -/

/-- The characters send_message writes for a message: the f-string
"Content-Length: <len>\r\n\r\n<json>", where len is len(json_str) — the
character count of the serialized JSON. -/
def sendMessageChars (m : Json) : List Char :=
  "Content-Length: ".data ++ natDigits (dumpsChars m).length ++
    '\r' :: '\n' :: '\r' :: '\n' :: dumpsChars m

/-- Universal-newline translation applied by Python's text-mode reader:
CRLF becomes LF, a lone CR also becomes LF. -/
def univNl : List Char → List Char
  | [] => []
  | [c] => if c = '\r' then ['\n'] else [c]
  | c :: d :: cs =>
    if c = '\r' then
      if d = '\n' then '\n' :: univNl cs
      else '\n' :: univNl (d :: cs)
    else c :: univNl (d :: cs)

/-- One readline() call on available data: everything up to and including the
next LF (or the whole rest of the stream if none). -/
def takeLine : List Char → List Char × List Char
  | [] => ([], [])
  | c :: cs =>
    if c = '\n' then (['\n'], cs)
    else
      let p := takeLine cs
      (c :: p.1, p.2)

/-- The line.startswith("Content-Length:") test. -/
def startsWithCL (line : List Char) : Bool :=
  List.isPrefixOf "Content-Length:".data line

/-- Python's str.split(":"): segments of the string between colons. -/
def splitCols : List Char → List (List Char)
  | [] => [[]]
  | c :: cs =>
    if c = ':' then [] :: splitCols cs
    else
      match splitCols cs with
      | [] => [[c]]
      | s :: ss => (c :: s) :: ss

/-- Whitespace removed by Python's str.strip(). -/
def isPyWs (c : Char) : Bool :=
  c = ' ' ∨ c = '\t' ∨ c = '\n' ∨ c.toNat = 13 ∨ c.toNat = 11 ∨ c.toNat = 12

/-- Python's str.strip(): drop whitespace from both ends. -/
def pyStrip (cs : List Char) : List Char :=
  ((cs.dropWhile isPyWs).reverse.dropWhile isPyWs).reverse

/-- Python's int() on an already-stripped string: optional sign then digits;
anything else raises ValueError, modelled as none. -/
def pyInt (cs : List Char) : Option Int :=
  match parseIntTok cs with
  | some (n, []) => some n
  | _ => none

/-- The header-value extraction int(line.split(":")[1].strip()). A missing
segment or a non-numeric value raises, which the callers catch and turn into
a None result; a negative declared length never occurs on streams produced
by send_message and is not modelled further. -/
def contentLenOf (line : List Char) : Option Nat :=
  match (splitCols line)[1]? with
  | none => none
  | some seg =>
    match pyInt (pyStrip seg) with
    | some n => if n < 0 then none else some n.toNat
    | none => none

/-- The body of read_message once data is available: read lines until one
starts with "Content-Length:" (an exhausted stream yields None — the
timeout / dead-process exits of test_lsp_client.py and the not-header exit
of get_snippet.py), parse the length, skip the separator line, read exactly
that many characters and json.loads them. Returns the message and the
characters left unread in the stream. The fuel (stream length plus one)
only bounds the header-skipping loop, which consumes at least one character
per iteration. -/
def headerLoopF : Nat → List Char → Option (Json × List Char)
  | 0, _ => none
  | fuel + 1, cs =>
    if cs = [] then none
    else
      let p := takeLine cs
      if startsWithCL p.1 then
        match contentLenOf p.1 with
        | none => none
        | some len =>
          let q := takeLine p.2
          match loads (q.2.take len) with
          | some m => some (m, q.2.drop len)
          | none => none
      else headerLoopF fuel p.2

/-- read_message on an already-translated text stream. -/
def readMessageChars (cs : List Char) : Option (Json × List Char) :=
  headerLoopF (cs.length + 1) cs

/-! ## Correlation: the send_request read loop
(get_snippet.py lines 202-257; debug_lsp_commands.py lines 58-95 is the same
loop without the enclosing try/except). Incoming messages are taken here as
already-deframed JSON values — the framing layer above is what produces
them. -/

/-- Python dict.get on a parsed message. json.loads builds a dict, so a
duplicate key keeps its last occurrence; a non-object has no .get, which in
the loop raises AttributeError (handled separately below). -/
def dictGet (kvs : List (List Char × Json)) (key : List Char) : Option Json :=
  match kvs with
  | [] => none
  | (k, v) :: tl =>
    match dictGet tl key with
    | some r => some r
    | none => if k = key then some v else none

/-- Python == between a parsed JSON value and the client's int request id:
ints compare by value, and a bool compares as 0 or 1 (True == 1 in Python);
every other shape (including a missing id, i.e. None) is unequal. -/
def pyEqInt (v : Json) (rid : Int) : Bool :=
  match v with
  | .int n => n = rid
  | .bool b => (if b then (1 : Int) else 0) = rid
  | _ => false

/-- The message.get("method") == "window/logMessage" test of the loop. -/
def isLogMsg (kvs : List (List Char × Json)) : Bool :=
  match dictGet kvs "method".data with
  | some (.str s) => s = "window/logMessage".data
  | _ => false

/-- The message.get("id") == self.request_id test of the loop. -/
def idMatches (kvs : List (List Char × Json)) (rid : Int) : Bool :=
  match dictGet kvs "id".data with
  | some v => pyEqInt v rid
  | none => false

/-- How the send_request loop finished. -/
inductive RecvOutcome where
  | answered (m : Json)
  | endOfStream
  | excFailed

/-- The read loop of send_request: read a message; no data means the stream
ended and the function returns None (the `if not header` exit); a
window/logMessage notification is logged and skipped; a message whose id
equals the request id is returned; anything else is skipped. A non-dict
message raises AttributeError at .get, caught by the enclosing try as a None
result. The second component collects every message observed and skipped
before the loop finished — the messages forwarded to the debug log, i.e. the
notification side channel. -/
def recvLoop (rid : Int) : List Json → RecvOutcome × List Json
  | [] => (.endOfStream, [])
  | m :: ms =>
    match m with
    | .obj kvs =>
      if isLogMsg kvs then
        let p := recvLoop rid ms
        (p.1, m :: p.2)
      else if idMatches kvs rid then
        (.answered m, [])
      else
        let p := recvLoop rid ms
        (p.1, m :: p.2)
    | _ => (.excFailed, [])

/-! ## Request-id allocation (test_lsp_client.py next_id, lines 195-197;
get_snippet.py and debug_lsp_commands.py increment self.request_id inline
in send_request with the same effect). -/

/-- next_id: increment the counter and return it. -/
def nextId (requestId : Int) : Int × Int :=
  (requestId + 1, requestId + 1)

/-- The ids handed out by n consecutive request-sending calls starting from
counter state s. -/
def allocIds (s : Int) : Nat → List Int
  | 0 => []
  | n + 1 =>
    let p := nextId s
    p.2 :: allocIds p.1 n

/-! ## The read_message wait loop (test_lsp_client.py lines 138-159) under
blocking-pipe semantics. The child's stdout is a blocking text-mode pipe:
readline() returns only once a complete line has arrived, and returns the
empty string only once the stream has reached end-of-file — until one of
those happens the call does not return at all. The environment is `alive i`
(what poll() observes at iteration i), `arrivals` (the lines the server will
ever write, in order, each with the elapsed time in milliseconds at which it
becomes readable) and `closesAt` (the elapsed time at which the server
closes its stdout, if it ever does). The model clock advances while blocked
in readline (to the arrival or close time) and by the explicit
time.sleep(0.1) taken when readline returns the empty string at end-of-file;
the checks at the top of each iteration read the clock at that moment. -/

/-- How the header wait of read_message ends — if it ends: a live server
that keeps its stdout open and writes nothing leaves the loop inside
readline with no exit ever taken, which `blockedInRead` records. -/
inductive BlockingOutcome where
  | timedOut (elapsedMs : Nat)
  | procDied (elapsedMs : Nat)
  | gotHeader (line : List Char) (elapsedMs : Nat)
  | blockedInRead

/-- The wait loop after the server's stdout has reached end-of-file:
readline returns the empty string immediately, so each iteration runs the
timeout and poll checks and sleeps 100 ms. Terminates without fuel: every
iteration adds 100 ms, so the clock passes any timeout. -/
def eofWait (alive : Nat → Bool) (timeoutMs i t : Nat) : BlockingOutcome :=
  if _h : timeoutMs < t then .timedOut t
  else if alive i = false then .procDied t
  else eofWait alive timeoutMs (i + 1) (t + 100)
termination_by timeoutMs + 1 - t
decreasing_by omega

/-- The header wait loop of read_message while the child's stdout pipe is
open: at iteration i with elapsed time t the loop checks the timeout (None
as soon as elapsed strictly exceeds it) and poll(), then calls readline(),
which blocks until the next line arrives — a Content-Length line ends the
wait, any other line is skipped and the checks re-run — and hands over to
`eofWait` once the stream closes, since readline returns the empty string
from then on. When no line ever arrives and the stream never closes, the
readline call never returns and no further check runs: the loop is stuck
inside the read, with no exit of read_message ever reached. -/
def openPipeWait (alive : Nat → Bool) (timeoutMs : Nat) :
    List (Nat × List Char) → Option Nat → Nat → Nat → BlockingOutcome
  | arrivals, closesAt, i, t =>
    if timeoutMs < t then .timedOut t
    else if alive i = false then .procDied t
    else
      match arrivals with
      | [] =>
        match closesAt with
        | none => .blockedInRead
        | some u => eofWait alive timeoutMs (i + 1) (max t u + 100)
      | (u, l) :: rest =>
        if startsWithCL l then .gotHeader l (max t u)
        else openPipeWait alive timeoutMs rest closesAt (i + 1) (max t u)

/-! ## Process lifecycle: close() (test_lsp_client.py lines 299-307), built
on the documented behaviour of subprocess.Popen: send_signal polls first and
does nothing if the process has already exited, wait(timeout=2) raises
TimeoutExpired if the process is still running when the window closes, kill
sends SIGKILL which a live process cannot ignore, and a plain wait() blocks
until the process is gone. -/

/-- The child process as close() sees it: whether it is currently running,
its exit code once it is not, and whether it reacts to SIGTERM within the
2-second wait window (environment behaviour). -/
structure Proc where
  alive : Bool
  exitCode : Int
  termResponsive : Bool

/-- Exceptions the Popen layer can raise here. -/
inductive PopenErr where
  | processLookup
  | timeoutExpired

/-- Raw os.kill: delivering a signal to a process that no longer exists
fails with ProcessLookupError; SIGKILL always brings a live process down,
SIGTERM only if it is responsive. -/
def osKillSignal (lethal : Bool) (p : Proc) : Except PopenErr Proc :=
  if p.alive then
    .ok (if lethal ∨ p.termResponsive then { p with alive := false } else p)
  else .error .processLookup

/-- Popen.send_signal: poll first, send nothing if the process has exited. -/
def sendSignalP (lethal : Bool) (p : Proc) : Except PopenErr Proc :=
  if p.alive then osKillSignal lethal p else .ok p

/-- Popen.terminate (SIGTERM). -/
def terminateP : Proc → Except PopenErr Proc := sendSignalP false

/-- Popen.kill (SIGKILL). -/
def killP : Proc → Except PopenErr Proc := sendSignalP true

/-- Popen.wait(timeout=2): returns once the process has exited, raises
TimeoutExpired if it is still running at the end of the window. -/
def waitTimeoutP (p : Proc) : Except PopenErr Proc :=
  if p.alive then .error .timeoutExpired else .ok p

/-- Popen.wait() with no timeout, called only after SIGKILL: blocks until
the process is gone. -/
def waitP (p : Proc) : Proc := { p with alive := false }

/-- close(): terminate, wait up to 2 seconds, and on TimeoutExpired kill and
wait; any other exception propagates. -/
def closeClient (p : Proc) : Except PopenErr Proc :=
  match terminateP p with
  | .error e => .error e
  | .ok p1 =>
    match waitTimeoutP p1 with
    | .ok p2 => .ok p2
    | .error .timeoutExpired =>
      match killP p1 with
      | .error e => .error e
      | .ok p3 => .ok (waitP p3)
    | .error e => .error e

/-! ## Startup (LSPClient.__init__, test_lsp_client.py lines 63-98 and
get_snippet.py lines 153-187): spawn the server, start the stderr reader
thread, sleep half a second, then poll once; if the process has already
exited, raise RuntimeError carrying the exit code. Nothing is written to the
server's stdin anywhere in the constructor. -/

/-- Popen.poll: None while running, the exit code once exited. -/
def pollP (p : Proc) : Option Int :=
  if p.alive then none else some p.exitCode

/-- The constructor's failure: the RuntimeError raised when the grace-period
poll finds the process gone, carrying the observed exit code. -/
inductive StartupFailure where
  | exitedDuringGrace (code : Int)

/-- Client state established by a successful constructor: the request-id
counter starts at zero. -/
structure ClientState where
  requestId : Int

/-- The constructor: poll after the grace period; raise with the exit code if
the process died, otherwise the client exists with request_id = 0. The
second component is everything the constructor wrote to the server's stdin:
nothing, on either path. -/
def clientInit (p : Proc) : Except StartupFailure ClientState × List Char :=
  match pollP p with
  | some code => (.error (.exitedDuringGrace code), [])
  | none => (.ok { requestId := 0 }, [])

/-! ## The request/notification operations of get_snippet.py
(send_request lines 202-257, send_notification lines 259-274,
execute_command lines 288-293). None of them consults any session state
before writing: the clients keep no state machine at all. -/

/-- The request message send_request builds (dict insertion order). -/
def reqMessage (rid : Int) (method : List Char) (params : Json) : Json :=
  .obj [("jsonrpc".data, .str "2.0".data), ("id".data, .int rid),
        ("method".data, .str method), ("params".data, params)]

/-- The notification message send_notification builds: no id field. -/
def notifMessage (method : List Char) (params : Json) : Json :=
  .obj [("jsonrpc".data, .str "2.0".data), ("method".data, .str method),
        ("params".data, params)]

/-- send_request: bump the id counter, write the framed request, then run the
read loop against whatever the server emits. Returns the new client state,
the characters written to the server's stdin, and the loop result. -/
def sendRequestOp (c : ClientState) (method : List Char) (params : Json)
    (serverMsgs : List Json) : ClientState × List Char × (RecvOutcome × List Json) :=
  let rid := c.requestId + 1
  ({ requestId := rid }, sendMessageChars (reqMessage rid method params),
   recvLoop rid serverMsgs)

/-- execute_command: send_request of workspace/executeCommand with the
command and arguments wrapped as its params. -/
def executeCommandOp (c : ClientState) (command : List Char) (args : List Json)
    (serverMsgs : List Json) : ClientState × List Char × (RecvOutcome × List Json) :=
  sendRequestOp c "workspace/executeCommand".data
    (.obj [("command".data, .str command), ("arguments".data, .arr args)]) serverMsgs

/-- send_notification: write the framed notification; nothing is read and no
state changes. -/
def sendNotificationOp (method : List Char) (params : Json) : List Char :=
  sendMessageChars (notifMessage method params)

/-! ## The single-read operations of test_lsp_client.py: initialize
(lines 199-228), completion (lines 255-276) and shutdown (lines 278-288)
each send one request and then return the result of exactly one
read_message call, with no id comparison anywhere. -/

/-- The value initialize / completion / shutdown return, as a function of the
(translated) server output stream: whatever the single read_message call
yields. -/
def singleReadResult (serverOutput : List Char) : Option Json :=
  (readMessageChars serverOutput).map (fun p => p.1)

/-- A remainder that cannot extend a decimal literal: empty or not starting
with a digit. Every position a serialized value can occupy puts a comma,
bracket, brace or end of input after it, so this always holds where the
round-trip lemmas need it. -/
def headNotDigit : List Char → Bool
  | [] => true
  | c :: _ => !isDigitChar c

/-- Number of bytes of the UTF-8 encoding of one code point: what
str.encode("utf-8") contributes per character. -/
def utf8Size (c : Char) : Nat :=
  if c.toNat < 128 then 1
  else if c.toNat < 2048 then 2
  else if c.toNat < 65536 then 3
  else 4

/-- Byte length of the UTF-8 encoding of a character sequence. -/
def utf8Len (cs : List Char) : Nat := (cs.map utf8Size).sum

/-! ## Round-trip development: json.loads inverts json.dumps. -/

theorem charOfNat_toNat {n : Nat} (h : n.isValidChar) : (Char.ofNat n).toNat = n := by
  unfold Char.ofNat
  rw [dif_pos h]
  rfl

theorem char_toNat_valid (c : Char) : c.toNat < 55296 ∨ (57343 < c.toNat ∧ c.toNat < 1114112) :=
  c.valid

theorem digitChar_toNat {d : Nat} (h : d < 10) : (Char.ofNat (48 + d)).toNat = 48 + d :=
  charOfNat_toNat (Or.inl (by omega))

theorem digitChar_isDigit {d : Nat} (h : d < 10) : isDigitChar (Char.ofNat (48 + d)) = true := by
  simp [isDigitChar, digitChar_toNat h]
  omega

theorem digitChar_val {d : Nat} (h : d < 10) : digitVal (Char.ofNat (48 + d)) = d := by
  simp [digitVal, digitChar_toNat h]

theorem natDigits_digits (n : Nat) : ∀ c ∈ natDigits n, isDigitChar c = true := by
  induction n using Nat.strongRecOn with
  | _ n ih =>
    intro c hc
    rw [natDigits] at hc
    by_cases h : n < 10
    · rw [if_pos h] at hc
      rw [List.mem_singleton] at hc
      subst hc
      exact digitChar_isDigit h
    · rw [if_neg h, List.mem_append] at hc
      rcases hc with hc | hc
      · exact ih (n / 10) (by omega) c hc
      · rw [List.mem_singleton] at hc
        subst hc
        exact digitChar_isDigit (Nat.mod_lt _ (by omega))

theorem natDigits_head (n : Nat) : ∃ d t, natDigits n = d :: t ∧ isDigitChar d = true := by
  match h : natDigits n with
  | [] =>
    exfalso
    rw [natDigits] at h
    by_cases h10 : n < 10
    · rw [if_pos h10] at h; cases h
    · rw [if_neg h10] at h
      exact List.append_ne_nil_of_right_ne_nil _ (by simp) h
  | d :: t =>
    exact ⟨d, t, rfl, natDigits_digits n d (h ▸ List.mem_cons_self ..)⟩

theorem parseNatAux_run (n : Nat) : ∀ acc rest,
    parseNatAux acc (natDigits n ++ rest) =
      parseNatAux (acc * 10 ^ (natDigits n).length + n) rest := by
  induction n using Nat.strongRecOn with
  | _ n ih =>
    intro acc rest
    rw [natDigits]
    by_cases h : n < 10
    · rw [if_pos h]
      simp only [List.cons_append, List.nil_append, List.length_singleton]
      rw [parseNatAux, if_pos (digitChar_isDigit h), digitChar_val h]
      norm_num
    · rw [if_neg h]
      simp only [List.append_assoc, List.cons_append, List.nil_append]
      rw [ih (n / 10) (by omega), List.length_append, List.length_singleton]
      rw [parseNatAux, if_pos (digitChar_isDigit (Nat.mod_lt _ (by omega))),
        digitChar_val (Nat.mod_lt _ (by omega))]
      have : (acc * 10 ^ (natDigits (n / 10)).length + n / 10) * 10 + n % 10 =
          acc * 10 ^ ((natDigits (n / 10)).length + 1) + n := by
        rw [pow_succ]
        have := Nat.div_add_mod n 10
        ring_nf
        omega
      rw [this]

theorem parseNatAux_stop {rest : List Char} (acc : Nat) (h : headNotDigit rest = true) :
    parseNatAux acc rest = (acc, rest) := by
  match rest with
  | [] => rfl
  | c :: t =>
    simp only [headNotDigit, Bool.not_eq_true'] at h
    rw [parseNatAux, if_neg (by simp [h])]

theorem parseNatAux_zero {rest : List Char} (n : Nat) (h : headNotDigit rest = true) :
    parseNatAux 0 (natDigits n ++ rest) = (n, rest) := by
  rw [parseNatAux_run, parseNatAux_stop _ h]
  norm_num

theorem digit_ne_dash {c : Char} (h : isDigitChar c = true) : ¬(c = '-') := by
  intro hEq
  subst hEq
  exact absurd h (by decide)

theorem parseIntTok_natDigits {rest : List Char} (n : Nat) (h : headNotDigit rest = true) :
    parseIntTok (natDigits n ++ rest) = some ((n : Int), rest) := by
  obtain ⟨d, t, hdt, hdig⟩ := natDigits_head n
  have hrun : parseNatAux (digitVal d) (t ++ rest) = (n, rest) := by
    have h0 : parseNatAux 0 ((d :: t) ++ rest) = (n, rest) := hdt ▸ parseNatAux_zero n h
    rw [List.cons_append, parseNatAux, if_pos hdig] at h0
    simpa using h0
  rw [hdt, List.cons_append]
  simp only [parseIntTok]
  rw [if_neg (digit_ne_dash hdig), if_pos hdig]
  simp [hrun]

theorem parseIntTok_intDigits {rest : List Char} (n : Int) (h : headNotDigit rest = true) :
    parseIntTok (intDigits n ++ rest) = some (n, rest) := by
  match n with
  | .ofNat m => exact parseIntTok_natDigits m h
  | .negSucc m =>
    obtain ⟨d, t, hdt, hdig⟩ := natDigits_head (m + 1)
    have hrun : parseNatAux (digitVal d) (t ++ rest) = (m + 1, rest) := by
      have h0 : parseNatAux 0 ((d :: t) ++ rest) = (m + 1, rest) := hdt ▸ parseNatAux_zero (m + 1) h
      rw [List.cons_append, parseNatAux, if_pos hdig] at h0
      simpa using h0
    rw [intDigits, hdt, List.cons_append, List.cons_append]
    simp only [parseIntTok]
    simp [hdig, hrun, Int.negSucc_eq]

theorem hexVal_hexDigitChar {d : Nat} (h : d < 16) : hexVal (hexDigitChar d) = some d := by
  interval_cases d <;> decide

theorem parseHex4_toHex4 {n : Nat} (h : n < 65536) (rest : List Char) :
    parseHex4 (toHex4 n ++ rest) = some (n, rest) := by
  have h16 : ∀ k : Nat, k % 16 < 16 := fun k => Nat.mod_lt _ (by omega)
  have harith : ((n / 4096 % 16 * 16 + n / 256 % 16) * 16 + n / 16 % 16) * 16 + n % 16 = n := by
    omega
  simp [toHex4, parseHex4, hexVal_hexDigitChar (h16 _), harith]

theorem parseStringBody_uEsc {h : Nat} (fuel : Nat) (rest : List Char) (hlt : h < 65536)
    (hno1 : ¬(55296 ≤ h ∧ h ≤ 56319)) (hno2 : ¬(56320 ≤ h ∧ h ≤ 57343)) :
    parseStringBody (fuel + 1) ('\\' :: 'u' :: (toHex4 h ++ rest)) =
      (parseStringBody fuel rest).map (fun p => (Char.ofNat h :: p.1, p.2)) := by
  simp only [parseStringBody]
  simp only [parseHex4_toHex4 hlt]
  rw [if_neg hno1, if_neg hno2]
  simp

theorem parseStringBody_uPair {h l : Nat} (fuel : Nat) (rest : List Char)
    (hlt1 : h < 65536) (hlt2 : l < 65536)
    (hh : 55296 ≤ h ∧ h ≤ 56319) (hl : 56320 ≤ l ∧ l ≤ 57343) :
    parseStringBody (fuel + 1) ('\\' :: 'u' :: (toHex4 h ++ '\\' :: 'u' :: (toHex4 l ++ rest))) =
      (parseStringBody fuel rest).map
        (fun p => (Char.ofNat (65536 + (h - 55296) * 1024 + (l - 56320)) :: p.1, p.2)) := by
  simp only [parseStringBody]
  simp only [parseHex4_toHex4 hlt1]
  rw [if_pos hh]
  simp only [List.cons_append, parseHex4_toHex4 hlt2]
  rw [if_pos hl]
  simp

theorem parseStringBody_escape (c : Char) (fuel : Nat) (rest : List Char) :
    parseStringBody (fuel + 1) (escapeChar c ++ rest) =
      (parseStringBody fuel rest).map (fun p => (c :: p.1, p.2)) := by
  have hval := char_toNat_valid c
  simp only [escapeChar]
  split_ifs with h1 h2 h3 h4 h5 h6 h7 h8 h9
  · subst h1
    simp [parseStringBody, unescape]
  · subst h2
    simp [parseStringBody, unescape]
  · have hc : c = Char.ofNat 8 := by rw [← h3, Char.ofNat_toNat]
    subst hc
    simp [parseStringBody, unescape]
  · have hc : c = Char.ofNat 9 := by rw [← h4, Char.ofNat_toNat]
    subst hc
    simp [parseStringBody, unescape]
  · have hc : c = Char.ofNat 10 := by rw [← h5, Char.ofNat_toNat]
    subst hc
    simp [parseStringBody, unescape]
  · have hc : c = Char.ofNat 12 := by rw [← h6, Char.ofNat_toNat]
    subst hc
    simp [parseStringBody, unescape]
  · have hc : c = Char.ofNat 13 := by rw [← h7, Char.ofNat_toNat]
    subst hc
    simp [parseStringBody, unescape]
  · simp only [List.cons_append, List.nil_append]
    simp only [parseStringBody]
    rw [if_neg h2, if_neg h1, if_neg (by omega : ¬(c.toNat < 32))]
  · simp only [List.cons_append, List.append_assoc]
    rw [parseStringBody_uEsc fuel rest h9
      (by omega : ¬(55296 ≤ c.toNat ∧ c.toNat ≤ 56319))
      (by omega : ¬(56320 ≤ c.toNat ∧ c.toNat ≤ 57343)), Char.ofNat_toNat]
  · have hlt : c.toNat < 1114112 := by omega
    have hge : 65536 ≤ c.toNat := by omega
    have hhi : 55296 + (c.toNat - 65536) / 1024 < 65536 := by omega
    have hlo : 56320 + (c.toNat - 65536) % 1024 < 65536 := by omega
    have harith : 65536 + (55296 + (c.toNat - 65536) / 1024 - 55296) * 1024 +
        (56320 + (c.toNat - 65536) % 1024 - 56320) = c.toNat := by omega
    simp only [List.cons_append, List.append_assoc]
    rw [parseStringBody_uPair fuel rest hhi hlo
      (by omega : 55296 ≤ 55296 + (c.toNat - 65536) / 1024 ∧
        55296 + (c.toNat - 65536) / 1024 ≤ 56319)
      (by omega : 56320 ≤ 56320 + (c.toNat - 65536) % 1024 ∧
        56320 + (c.toNat - 65536) % 1024 ≤ 57343), harith, Char.ofNat_toNat]

theorem parseStringBody_escBody (s : List Char) : ∀ fuel rest, s.length < fuel →
    parseStringBody fuel (escBody s ++ '"' :: rest) = some (s, rest) := by
  induction s with
  | nil =>
    intro fuel rest hf
    match fuel, hf with
    | f + 1, _ => rfl
  | cons c tl ih =>
    intro fuel rest hf
    match fuel, hf with
    | f + 1, hf =>
      have : escBody (c :: tl) = escapeChar c ++ escBody tl := by
        simp [escBody]
      rw [this, List.append_assoc, parseStringBody_escape, ih f rest (by simpa using hf)]
      rfl

theorem escapeChar_length_pos (c : Char) : 1 ≤ (escapeChar c).length := by
  simp only [escapeChar]
  split_ifs <;> simp [toHex4]

theorem escBody_length_ge (s : List Char) : s.length ≤ (escBody s).length := by
  induction s with
  | nil => simp [escBody]
  | cons c tl ih =>
    have : escBody (c :: tl) = escapeChar c ++ escBody tl := by simp [escBody]
    rw [this, List.length_append, List.length_cons]
    have := escapeChar_length_pos c
    omega

theorem digit_not_ws {c : Char} (h : isDigitChar c = true) : isJsonWs c = false := by
  simp only [isJsonWs, decide_eq_false_iff_not]
  rintro (rfl | rfl | rfl | rfl) <;> exact absurd h (by decide)

theorem digit_ne {c : Char} (h : isDigitChar c = true) (x : Char)
    (hx : isDigitChar x = false) : ¬(c = x) := by
  intro he
  subst he
  rw [h] at hx
  cases hx

theorem digit_branchFree {c : Char} (h : isDigitChar c = true) :
    isJsonWs c = false ∧ ¬(c = ']') ∧ ¬(c = '}') ∧ ¬(c = ',') ∧ ¬(c = '"') ∧
      ¬(c = '[') ∧ ¬(c = '{') ∧ ¬(c = 'n') ∧ ¬(c = 't') ∧ ¬(c = 'f') :=
  ⟨digit_not_ws h, digit_ne h ']' (by decide), digit_ne h '}' (by decide),
   digit_ne h ',' (by decide), digit_ne h '"' (by decide), digit_ne h '[' (by decide),
   digit_ne h '{' (by decide), digit_ne h 'n' (by decide), digit_ne h 't' (by decide),
   digit_ne h 'f' (by decide)⟩

theorem intDigits_head (n : Int) : ∃ d t, intDigits n = d :: t ∧
    (isDigitChar d = true ∨ d = '-') := by
  match n with
  | .ofNat m =>
    obtain ⟨d, t, hdt, hd⟩ := natDigits_head m
    exact ⟨d, t, hdt, Or.inl hd⟩
  | .negSucc m =>
    exact ⟨'-', natDigits (m + 1), rfl, Or.inr rfl⟩

theorem intHead_branchFree {c : Char} (h : isDigitChar c = true ∨ c = '-') :
    isJsonWs c = false ∧ ¬(c = ']') ∧ ¬(c = '}') ∧ ¬(c = ',') ∧ ¬(c = '"') ∧
      ¬(c = '[') ∧ ¬(c = '{') ∧ ¬(c = 'n') ∧ ¬(c = 't') ∧ ¬(c = 'f') := by
  rcases h with h | rfl
  · exact digit_branchFree h
  · refine ⟨by decide, ?_, ?_, ?_, ?_, ?_, ?_, ?_, ?_, ?_⟩ <;> decide

theorem skipWs_cons_not {c : Char} (h : isJsonWs c = false) (cs : List Char) :
    skipWs (c :: cs) = c :: cs := by
  simp [skipWs, h]

theorem skipWs_cons_space (cs : List Char) : skipWs (' ' :: cs) = skipWs cs := by
  simp [skipWs, isJsonWs]

/-- The first character of a serialized value: never whitespace and never a
closing delimiter, so the parser's dispatch sees exactly the value. -/
theorem dumps_head (j : Json) : ∃ c t, dumpsChars j = c :: t ∧
    isJsonWs c = false ∧ ¬(c = ']') ∧ ¬(c = '}') ∧ ¬(c = ',') := by
  match j with
  | .null =>
    exact ⟨'n', ['u', 'l', 'l'], by simp [dumpsChars], by decide, by decide, by decide, by decide⟩
  | .bool true =>
    exact ⟨'t', ['r', 'u', 'e'], by simp [dumpsChars], by decide, by decide, by decide, by decide⟩
  | .bool false =>
    exact ⟨'f', ['a', 'l', 's', 'e'], by simp [dumpsChars], by decide, by decide, by decide,
      by decide⟩
  | .int n =>
    obtain ⟨d, t, hdt, hd⟩ := intDigits_head n
    obtain ⟨hws, h1, h2, h3, _⟩ := intHead_branchFree hd
    exact ⟨d, t, by simp [dumpsChars, hdt], hws, h1, h2, h3⟩
  | .str s =>
    exact ⟨'"', escBody s ++ ['"'], by simp [dumpsChars], by decide, by decide, by decide,
      by decide⟩
  | .arr xs =>
    exact ⟨'[', dumpsElems xs ++ [']'], by simp [dumpsChars], by decide, by decide, by decide,
      by decide⟩
  | .obj kvs =>
    exact ⟨'{', dumpsMembers kvs ++ ['}'], by simp [dumpsChars], by decide, by decide, by decide,
      by decide⟩

theorem parseValue_ws (fuel : Nat) (cs : List Char) :
    parseValue fuel (' ' :: cs) = parseValue fuel cs := by
  match fuel with
  | 0 => rfl
  | f + 1 => simp only [parseValue, skipWs_cons_space]

theorem parseArrayItems_ws (fuel : Nat) (cs : List Char) :
    parseArrayItems fuel (' ' :: cs) = parseArrayItems fuel cs := by
  match fuel with
  | 0 => rfl
  | f + 1 => simp only [parseArrayItems, parseValue_ws]

theorem hnd_of {c : Char} (hc : isDigitChar c = false) (t : List Char) :
    headNotDigit (c :: t) = true := by
  simp [headNotDigit, hc]

theorem dumpsApp_head (x : Json) (r : List Char) : ∃ c0 t0,
    dumpsChars x ++ r = c0 :: t0 ∧ isJsonWs c0 = false ∧ ¬(c0 = ']') ∧ ¬(c0 = '}') ∧
      ¬(c0 = ',') := by
  obtain ⟨c0, t0, h0, hws, h1, h2, h3⟩ := dumps_head x
  exact ⟨c0, t0 ++ r, by rw [h0]; rfl, hws, h1, h2, h3⟩

theorem dumpsElems_cons (x : Json) (xs : List Json) :
    ∃ u, dumpsElems (x :: xs) = dumpsChars x ++ u := by
  cases xs with
  | nil =>
    refine ⟨[], ?_⟩
    simp [dumpsElems]
  | cons y tl =>
    refine ⟨',' :: ' ' :: dumpsElems (y :: tl), ?_⟩
    simp [dumpsElems]

theorem dumpsMembers_cons (k : List Char) (v : Json) (ms : List (List Char × Json)) :
    ∃ w, dumpsMembers ((k, v) :: ms) = '"' :: w := by
  cases ms with
  | nil =>
    refine ⟨escBody k ++ '"' :: ':' :: ' ' :: dumpsChars v, ?_⟩
    simp [dumpsMembers, keyLead]
  | cons m tl =>
    refine ⟨escBody k ++ '"' :: ':' :: ' ' :: (dumpsChars v ++ ',' :: ' ' :: dumpsMembers (m :: tl)), ?_⟩
    simp [dumpsMembers, keyLead]

mutual

/-- The value round trip: parsing a serialized value recovers it, for any
fuel above the serialization length and any remainder that cannot extend a
number literal. -/
theorem rtValue : ∀ (j : Json) (fuel : Nat) (rest : List Char),
    (dumpsChars j).length < fuel → headNotDigit rest = true →
    parseValue fuel (dumpsChars j ++ rest) = some (j, rest)
  | .null, fuel, rest, hf, _ => by
    cases fuel with
    | zero => exact absurd hf (by omega)
    | succ f =>
      have hd : dumpsChars .null = 'n' :: 'u' :: 'l' :: 'l' :: [] := by simp [dumpsChars]
      rw [hd]
      simp [parseValue, skipWs, isJsonWs]
  | .bool true, fuel, rest, hf, _ => by
    cases fuel with
    | zero => exact absurd hf (by omega)
    | succ f =>
      have hd : dumpsChars (.bool true) = 't' :: 'r' :: 'u' :: 'e' :: [] := by simp [dumpsChars]
      rw [hd]
      simp [parseValue, skipWs, isJsonWs]
  | .bool false, fuel, rest, hf, _ => by
    cases fuel with
    | zero => exact absurd hf (by omega)
    | succ f =>
      have hd : dumpsChars (.bool false) = 'f' :: 'a' :: 'l' :: 's' :: 'e' :: [] := by
        simp [dumpsChars]
      rw [hd]
      simp [parseValue, skipWs, isJsonWs]
  | .int n, fuel, rest, hf, hr => by
    cases fuel with
    | zero => exact absurd hf (by omega)
    | succ f =>
      obtain ⟨d, t, hdt, hd⟩ := intDigits_head n
      obtain ⟨hws, _, _, _, hq, hlb, hob, hn, ht, hf2⟩ := intHead_branchFree hd
      have hdc : dumpsChars (.int n) = intDigits n := by simp [dumpsChars]
      rw [hdc, hdt, List.cons_append]
      simp only [parseValue, skipWs_cons_not hws]
      rw [if_neg hq, if_neg hlb, if_neg hob, if_neg hn, if_neg ht, if_neg hf2]
      rw [← List.cons_append, ← hdt, parseIntTok_intDigits n hr]
      rfl
  | .str s, fuel, rest, hf, _ => by
    cases fuel with
    | zero => exact absurd hf (by omega)
    | succ f =>
      have hdc : dumpsChars (.str s) ++ rest = '"' :: (escBody s ++ '"' :: rest) := by
        simp [dumpsChars]
      rw [hdc]
      simp only [parseValue, skipWs_cons_not (show isJsonWs '"' = false by decide)]
      rw [if_true]
      rw [parseStringBody_escBody s _ _ (by
        have := escBody_length_ge s
        simp only [List.length_append, List.length_cons]
        omega)]
      rfl
  | .arr [], fuel, rest, hf, _ => by
    cases fuel with
    | zero => exact absurd hf (by omega)
    | succ f =>
      have hdc : dumpsChars (.arr []) ++ rest = '[' :: ']' :: rest := by
        simp [dumpsChars, dumpsElems]
      rw [hdc]
      simp [parseValue, skipWs, isJsonWs]
  | .arr (x :: xs), fuel, rest, hf, _ => by
    cases fuel with
    | zero => exact absurd hf (by omega)
    | succ f =>
      have hlen2 : (dumpsChars (.arr (x :: xs))).length = (dumpsElems (x :: xs)).length + 2 := by
        simp [dumpsChars]
      have hlen : (dumpsElems (x :: xs)).length + 1 < f := by omega
      have hdc : dumpsChars (.arr (x :: xs)) ++ rest =
          '[' :: (dumpsElems (x :: xs) ++ ']' :: rest) := by simp [dumpsChars]
      rw [hdc]
      simp only [parseValue, skipWs_cons_not (show isJsonWs '[' = false by decide)]
      rw [if_neg (show ¬(('[' : Char) = '"') by decide), if_true]
      obtain ⟨u, hu⟩ := dumpsElems_cons x xs
      obtain ⟨c0, t0, h0, hws0, hne0, _, _⟩ := dumpsApp_head x (u ++ ']' :: rest)
      have harr : dumpsElems (x :: xs) ++ ']' :: rest = c0 :: t0 := by
        rw [hu, List.append_assoc, h0]
      rw [harr, skipWs_cons_not hws0]
      split
      · next r heq =>
        exact absurd (List.head_eq_of_cons_eq heq.symm).symm hne0
      · next =>
        rw [← harr, rtElems x xs f rest hlen]
        rfl
  | .obj [], fuel, rest, hf, _ => by
    cases fuel with
    | zero => exact absurd hf (by omega)
    | succ f =>
      have hdc : dumpsChars (.obj []) ++ rest = '{' :: '}' :: rest := by
        simp [dumpsChars, dumpsMembers]
      rw [hdc]
      simp [parseValue, skipWs, isJsonWs]
  | .obj ((k, v) :: ms), fuel, rest, hf, _ => by
    cases fuel with
    | zero => exact absurd hf (by omega)
    | succ f =>
      have hlen2 : (dumpsChars (.obj ((k, v) :: ms))).length =
          (dumpsMembers ((k, v) :: ms)).length + 2 := by
        simp [dumpsChars]
      have hlen : (dumpsMembers ((k, v) :: ms)).length + 1 < f := by omega
      have hdc : dumpsChars (.obj ((k, v) :: ms)) ++ rest =
          '{' :: (dumpsMembers ((k, v) :: ms) ++ '}' :: rest) := by simp [dumpsChars]
      rw [hdc]
      simp only [parseValue, skipWs_cons_not (show isJsonWs '{' = false by decide)]
      rw [if_neg (show ¬(('{' : Char) = '"') by decide),
        if_neg (show ¬(('{' : Char) = '[') by decide), if_true]
      obtain ⟨w, hw⟩ := dumpsMembers_cons k v ms
      have hobj : dumpsMembers ((k, v) :: ms) ++ '}' :: rest = '"' :: (w ++ '}' :: rest) := by
        rw [hw]; rfl
      rw [hobj, skipWs_cons_not (show isJsonWs '"' = false by decide)]
      split
      · next r heq =>
        exact absurd (List.head_eq_of_cons_eq heq.symm) (by decide)
      · next =>
        rw [← hobj, rtMembers k v ms f rest hlen]
        rfl
termination_by j fuel rest hf hr => sizeOf j

/-- The element-list round trip for non-empty arrays. -/
theorem rtElems : ∀ (x : Json) (xs : List Json) (fuel : Nat) (rest : List Char),
    (dumpsElems (x :: xs)).length + 1 < fuel →
    parseArrayItems fuel (dumpsElems (x :: xs) ++ ']' :: rest) = some (x :: xs, rest)
  | x, [], fuel, rest, hf => by
    cases fuel with
    | zero => exact absurd hf (by omega)
    | succ f =>
      have h1 : dumpsElems [x] = dumpsChars x := by simp [dumpsElems]
      have hb : (dumpsChars x).length < f := by
        rw [h1] at hf
        omega
      rw [h1]
      simp only [parseArrayItems, rtValue x f (']' :: rest) hb (hnd_of (by decide) rest),
        skipWs_cons_not (show isJsonWs ']' = false by decide)]
  | x, y :: tl, fuel, rest, hf => by
    cases fuel with
    | zero => exact absurd hf (by omega)
    | succ f =>
      have hsh : dumpsElems (x :: y :: tl) ++ ']' :: rest =
          dumpsChars x ++ (',' :: ' ' :: (dumpsElems (y :: tl) ++ ']' :: rest)) := by
        simp [dumpsElems]
      have hlen2 : (dumpsElems (x :: y :: tl)).length =
          (dumpsChars x).length + 2 + (dumpsElems (y :: tl)).length := by
        simp [dumpsElems]
        omega
      have hlx : (dumpsChars x).length < f := by omega
      have hltl : (dumpsElems (y :: tl)).length + 1 < f := by omega
      rw [hsh]
      simp only [parseArrayItems,
        rtValue x f (',' :: ' ' :: (dumpsElems (y :: tl) ++ ']' :: rest)) hlx
          (hnd_of (by decide) _),
        skipWs_cons_not (show isJsonWs ',' = false by decide)]
      rw [parseArrayItems_ws, rtElems y tl f rest hltl]
      rfl
termination_by x xs fuel rest hf => sizeOf x + sizeOf xs

/-- The member-list round trip for non-empty objects. -/
theorem rtMembers : ∀ (k : List Char) (v : Json) (ms : List (List Char × Json))
    (fuel : Nat) (rest : List Char),
    (dumpsMembers ((k, v) :: ms)).length + 1 < fuel →
    parseObjItems fuel (dumpsMembers ((k, v) :: ms) ++ '}' :: rest) = some ((k, v) :: ms, rest)
  | k, v, [], fuel, rest, hf => by
    cases fuel with
    | zero => exact absurd hf (by omega)
    | succ f =>
      have hsh : dumpsMembers [(k, v)] ++ '}' :: rest =
          '"' :: (escBody k ++ '"' :: (':' :: ' ' :: (dumpsChars v ++ '}' :: rest))) := by
        simp [dumpsMembers, keyLead]
      have hlen2 : (dumpsMembers [(k, v)]).length =
          (escBody k).length + 4 + (dumpsChars v).length := by
        simp [dumpsMembers, keyLead]
        omega
      have hlv : (dumpsChars v).length < f := by omega
      rw [hsh]
      simp only [parseObjItems]
      rw [parseStringBody_escBody k _ _ (by
        have := escBody_length_ge k
        simp only [List.length_append, List.length_cons]
        omega)]
      simp only [skipWs_cons_not (show isJsonWs ':' = false by decide), parseValue_ws,
        rtValue v f ('}' :: rest) hlv (hnd_of (by decide) rest),
        skipWs_cons_not (show isJsonWs '}' = false by decide)]
  | k, v, (k2, v2) :: tl, fuel, rest, hf => by
    cases fuel with
    | zero => exact absurd hf (by omega)
    | succ f =>
      have hsh : dumpsMembers ((k, v) :: (k2, v2) :: tl) ++ '}' :: rest =
          '"' :: (escBody k ++ '"' :: (':' :: ' ' :: (dumpsChars v ++
            ',' :: ' ' :: (dumpsMembers ((k2, v2) :: tl) ++ '}' :: rest)))) := by
        simp [dumpsMembers, keyLead]
      have hlen2 : (dumpsMembers ((k, v) :: (k2, v2) :: tl)).length =
          (escBody k).length + 4 + (dumpsChars v).length + 2 +
            (dumpsMembers ((k2, v2) :: tl)).length := by
        simp [dumpsMembers, keyLead]
        omega
      have hlv : (dumpsChars v).length < f := by omega
      have hltl : (dumpsMembers ((k2, v2) :: tl)).length + 1 < f := by omega
      rw [hsh]
      simp only [parseObjItems]
      rw [parseStringBody_escBody k _ _ (by
        have := escBody_length_ge k
        simp only [List.length_append, List.length_cons]
        omega)]
      simp only [skipWs_cons_not (show isJsonWs ':' = false by decide), parseValue_ws,
        rtValue v f (',' :: ' ' :: (dumpsMembers ((k2, v2) :: tl) ++ '}' :: rest)) hlv
          (hnd_of (by decide) _),
        skipWs_cons_not (show isJsonWs ',' = false by decide), skipWs_cons_space]
      obtain ⟨w, hw⟩ := dumpsMembers_cons k2 v2 tl
      have hobj : dumpsMembers ((k2, v2) :: tl) ++ '}' :: rest = '"' :: (w ++ '}' :: rest) := by
        rw [hw]; rfl
      rw [hobj, skipWs_cons_not (show isJsonWs '"' = false by decide), ← hobj,
        rtMembers k2 v2 tl f rest hltl]
      rfl
termination_by k v ms fuel rest hf => sizeOf v + sizeOf ms

end

/-- json.loads inverts json.dumps on every message value. -/
theorem loads_dumps (j : Json) : loads (dumpsChars j) = some j := by
  have h1 : parseValue ((dumpsChars j).length + 1) (dumpsChars j ++ []) = some (j, []) :=
    rtValue j _ [] (by omega) rfl
  rw [List.append_nil] at h1
  simp [loads, h1, skipWs]

theorem hexDigitChar_printable {d : Nat} (h : d < 16) :
    32 ≤ (hexDigitChar d).toNat ∧ (hexDigitChar d).toNat ≤ 126 := by
  interval_cases d <;> decide

theorem toHex4_printable (n : Nat) :
    ∀ c ∈ toHex4 n, 32 ≤ c.toNat ∧ c.toNat ≤ 126 := by
  intro c hc
  have h16 : ∀ k : Nat, k % 16 < 16 := fun k => Nat.mod_lt _ (by omega)
  simp only [toHex4, List.mem_cons, List.mem_singleton] at hc
  rcases hc with rfl | rfl | rfl | rfl | h
  · exact hexDigitChar_printable (h16 _)
  · exact hexDigitChar_printable (h16 _)
  · exact hexDigitChar_printable (h16 _)
  · exact hexDigitChar_printable (h16 _)
  · cases h

theorem escapeChar_printable (c : Char) :
    ∀ e ∈ escapeChar c, 32 ≤ e.toNat ∧ e.toNat ≤ 126 := by
  intro e he
  simp only [escapeChar] at he
  split_ifs at he with h1 h2 h3 h4 h5 h6 h7 h8 h9 <;>
    simp only [List.cons_append, List.mem_cons, List.mem_append, List.mem_singleton,
      List.not_mem_nil, or_false] at he
  · rcases he with rfl | rfl
    · decide
    · decide
  · rcases he with rfl | rfl
    · decide
    · decide
  · rcases he with rfl | rfl
    · decide
    · decide
  · rcases he with rfl | rfl
    · decide
    · decide
  · rcases he with rfl | rfl
    · decide
    · decide
  · rcases he with rfl | rfl
    · decide
    · decide
  · rcases he with rfl | rfl
    · decide
    · decide
  · subst he
    omega
  · rcases he with rfl | rfl | h
    · decide
    · decide
    · exact toHex4_printable _ e h
  · rcases he with rfl | rfl | h | rfl | rfl | h
    · decide
    · decide
    · exact toHex4_printable _ e h
    · decide
    · decide
    · exact toHex4_printable _ e h

theorem escBody_printable (s : List Char) :
    ∀ e ∈ escBody s, 32 ≤ e.toNat ∧ e.toNat ≤ 126 := by
  intro e he
  rw [escBody, List.mem_flatMap] at he
  obtain ⟨c, _, hec⟩ := he
  exact escapeChar_printable c e hec

theorem natDigits_printable (n : Nat) :
    ∀ c ∈ natDigits n, 32 ≤ c.toNat ∧ c.toNat ≤ 126 := by
  intro c hc
  have := natDigits_digits n c hc
  simp only [isDigitChar, decide_eq_true_eq] at this
  omega

theorem intDigits_printable (n : Int) :
    ∀ c ∈ intDigits n, 32 ≤ c.toNat ∧ c.toNat ≤ 126 := by
  intro c hc
  match n with
  | .ofNat m => exact natDigits_printable m c hc
  | .negSucc m =>
    rw [intDigits, List.mem_cons] at hc
    rcases hc with rfl | hc
    · decide
    · exact natDigits_printable (m + 1) c hc

theorem keyLead_printable (k : List Char) :
    ∀ c ∈ keyLead k, 32 ≤ c.toNat ∧ c.toNat ≤ 126 := by
  intro c hc
  rw [keyLead, List.cons_append, List.mem_cons, List.mem_append, List.mem_cons,
    List.mem_cons, List.mem_cons] at hc
  rcases hc with rfl | h | rfl | rfl | rfl | h
  · decide
  · exact escBody_printable k c h
  · decide
  · decide
  · decide
  · cases h

mutual

/-- Every character json.dumps emits is printable ASCII (0x20 to 0x7e): the
ensure_ascii escaping leaves nothing else. In particular the payload is pure
ASCII, so its character count equals its UTF-8 byte count, and it contains
no CR or LF. -/
theorem dumps_printable : ∀ (j : Json), ∀ c ∈ dumpsChars j, 32 ≤ c.toNat ∧ c.toNat ≤ 126
  | .null, c, hc => by
    have hd : dumpsChars .null = 'n' :: 'u' :: 'l' :: 'l' :: [] := by simp [dumpsChars]
    rw [hd] at hc
    simp only [List.mem_cons, List.mem_singleton] at hc
    rcases hc with rfl | rfl | rfl | rfl | h
    · decide
    · decide
    · decide
    · decide
    · cases h
  | .bool true, c, hc => by
    have hd : dumpsChars (.bool true) = 't' :: 'r' :: 'u' :: 'e' :: [] := by simp [dumpsChars]
    rw [hd] at hc
    simp only [List.mem_cons, List.mem_singleton] at hc
    rcases hc with rfl | rfl | rfl | rfl | h
    · decide
    · decide
    · decide
    · decide
    · cases h
  | .bool false, c, hc => by
    have hd : dumpsChars (.bool false) = 'f' :: 'a' :: 'l' :: 's' :: 'e' :: [] := by
      simp [dumpsChars]
    rw [hd] at hc
    simp only [List.mem_cons, List.mem_singleton] at hc
    rcases hc with rfl | rfl | rfl | rfl | rfl | h
    · decide
    · decide
    · decide
    · decide
    · decide
    · cases h
  | .int n, c, hc => by
    have hd : dumpsChars (.int n) = intDigits n := by simp [dumpsChars]
    rw [hd] at hc
    exact intDigits_printable n c hc
  | .str s, c, hc => by
    have hd : dumpsChars (.str s) = '"' :: escBody s ++ ['"'] := by simp [dumpsChars]
    rw [hd, List.cons_append, List.mem_cons, List.mem_append, List.mem_singleton] at hc
    rcases hc with rfl | h | rfl
    · decide
    · exact escBody_printable s c h
    · decide
  | .arr xs, c, hc => by
    have hd : dumpsChars (.arr xs) = '[' :: dumpsElems xs ++ [']'] := by simp [dumpsChars]
    rw [hd, List.cons_append, List.mem_cons, List.mem_append, List.mem_singleton] at hc
    rcases hc with rfl | h | rfl
    · decide
    · exact dumpsElems_printable xs c h
    · decide
  | .obj kvs, c, hc => by
    have hd : dumpsChars (.obj kvs) = '{' :: dumpsMembers kvs ++ ['}'] := by simp [dumpsChars]
    rw [hd, List.cons_append, List.mem_cons, List.mem_append, List.mem_singleton] at hc
    rcases hc with rfl | h | rfl
    · decide
    · exact dumpsMembers_printable kvs c h
    · decide

theorem dumpsElems_printable : ∀ (xs : List Json), ∀ c ∈ dumpsElems xs,
    32 ≤ c.toNat ∧ c.toNat ≤ 126
  | [], c, hc => by
    rw [show dumpsElems [] = [] from by simp [dumpsElems]] at hc
    cases hc
  | [x], c, hc => by
    rw [show dumpsElems [x] = dumpsChars x from by simp [dumpsElems]] at hc
    exact dumps_printable x c hc
  | x :: y :: tl, c, hc => by
    rw [show dumpsElems (x :: y :: tl) = dumpsChars x ++ ',' :: ' ' :: dumpsElems (y :: tl)
        from by simp [dumpsElems],
      List.mem_append, List.mem_cons, List.mem_cons] at hc
    rcases hc with h | rfl | rfl | h
    · exact dumps_printable x c h
    · decide
    · decide
    · exact dumpsElems_printable (y :: tl) c h

theorem dumpsMembers_printable : ∀ (kvs : List (List Char × Json)), ∀ c ∈ dumpsMembers kvs,
    32 ≤ c.toNat ∧ c.toNat ≤ 126
  | [], c, hc => by
    rw [show dumpsMembers [] = [] from by simp [dumpsMembers]] at hc
    cases hc
  | [(k, v)], c, hc => by
    rw [show dumpsMembers [(k, v)] = keyLead k ++ dumpsChars v from by simp [dumpsMembers],
      List.mem_append] at hc
    rcases hc with h | h
    · exact keyLead_printable k c h
    · exact dumps_printable v c h
  | (k, v) :: m :: tl, c, hc => by
    rw [show dumpsMembers ((k, v) :: m :: tl) =
        keyLead k ++ dumpsChars v ++ ',' :: ' ' :: dumpsMembers (m :: tl)
        from by simp [dumpsMembers],
      List.append_assoc, List.mem_append, List.mem_append, List.mem_cons, List.mem_cons] at hc
    rcases hc with h | h | rfl | rfl | h
    · exact keyLead_printable k c h
    · exact dumps_printable v c h
    · decide
    · decide
    · exact dumpsMembers_printable (m :: tl) c h

end

/-! ## Framing lemmas: read_message inverts send_message over the text-mode
pipe, and the header's declared length is the payload's UTF-8 byte length. -/

theorem utf8Len_ascii {cs : List Char} (h : ∀ c ∈ cs, 32 ≤ c.toNat ∧ c.toNat ≤ 126) :
    utf8Len cs = cs.length := by
  induction cs with
  | nil => rfl
  | cons c tl ih =>
    have hc := h c (List.mem_cons_self ..)
    have : utf8Size c = 1 := by
      simp only [utf8Size]
      rw [if_pos (by omega)]
    simp only [utf8Len, List.map_cons, List.sum_cons, List.length_cons] at *
    rw [this, ih (fun x hx => h x (List.mem_cons_of_mem _ hx))]
    omega

theorem printable_ne_cr {c : Char} (h : 32 ≤ c.toNat ∧ c.toNat ≤ 126) : ¬(c = '\r') := by
  intro he
  subst he
  exact absurd h (by decide)

theorem printable_ne_nl {c : Char} (h : 32 ≤ c.toNat ∧ c.toNat ≤ 126) : ¬(c = '\n') := by
  intro he
  subst he
  exact absurd h (by decide)

theorem univNl_cons_not_cr {c : Char} (h : ¬(c = '\r')) (cs : List Char) :
    univNl (c :: cs) = c :: univNl cs := by
  cases cs with
  | nil => simp [univNl, h]
  | cons d tl => simp [univNl, h]

theorem univNl_append_printable {a : List Char}
    (h : ∀ c ∈ a, 32 ≤ c.toNat ∧ c.toNat ≤ 126) (b : List Char) :
    univNl (a ++ b) = a ++ univNl b := by
  induction a with
  | nil => rfl
  | cons c tl ih =>
    rw [List.cons_append, univNl_cons_not_cr (printable_ne_cr (h c (List.mem_cons_self ..))),
      ih (fun x hx => h x (List.mem_cons_of_mem _ hx)), List.cons_append]

theorem univNl_crlf (cs : List Char) : univNl ('\r' :: '\n' :: cs) = '\n' :: univNl cs := by
  simp [univNl]

theorem takeLine_cons_nl (b : List Char) : takeLine ('\n' :: b) = (['\n'], b) := by
  simp [takeLine]

theorem takeLine_no_nl {a : List Char} (h : ∀ c ∈ a, ¬(c = '\n')) (b : List Char) :
    takeLine (a ++ '\n' :: b) = (a ++ ['\n'], b) := by
  induction a with
  | nil => exact takeLine_cons_nl b
  | cons c tl ih =>
    rw [List.cons_append]
    simp only [takeLine]
    rw [if_neg (h c (List.mem_cons_self ..)), ih (fun x hx => h x (List.mem_cons_of_mem _ hx))]
    rfl

theorem splitCols_nocolon {a : List Char} (h : ∀ c ∈ a, ¬(c = ':')) :
    splitCols a = [a] := by
  induction a with
  | nil => rfl
  | cons c tl ih =>
    simp only [splitCols]
    rw [if_neg (h c (List.mem_cons_self ..)), ih (fun x hx => h x (List.mem_cons_of_mem _ hx))]

theorem splitCols_split {a : List Char} (h : ∀ c ∈ a, ¬(c = ':')) (b : List Char) :
    splitCols (a ++ ':' :: b) = a :: splitCols b := by
  induction a with
  | nil =>
    simp [splitCols]
  | cons c tl ih =>
    rw [List.cons_append]
    simp only [splitCols]
    rw [if_neg (h c (List.mem_cons_self ..)), ih (fun x hx => h x (List.mem_cons_of_mem _ hx))]

theorem digit_not_pyws {c : Char} (h : isDigitChar c = true) : isPyWs c = false := by
  simp only [isPyWs, decide_eq_false_iff_not]
  simp only [isDigitChar, decide_eq_true_eq] at h
  rintro (rfl | rfl | rfl | h13 | h11 | h12)
  · exact absurd h (by decide)
  · exact absurd h (by decide)
  · exact absurd h (by decide)
  · omega
  · omega
  · omega

theorem dropWhile_digits {l : List Char} (h : ∀ c ∈ l, isDigitChar c = true) :
    l.dropWhile isPyWs = l := by
  cases l with
  | nil => rfl
  | cons c tl =>
    rw [List.dropWhile_cons, if_neg]
    rw [digit_not_pyws (h c (List.mem_cons_self ..))]
    simp

theorem natDigits_ne_nil (n : Nat) : natDigits n ≠ [] := by
  obtain ⟨d, t, hdt, _⟩ := natDigits_head n
  rw [hdt]
  simp

theorem pyStrip_digits {ds : List Char} (hne : ds ≠ [])
    (h : ∀ c ∈ ds, isDigitChar c = true) :
    pyStrip (' ' :: (ds ++ ['\n'])) = ds := by
  have hfront : (' ' :: (ds ++ ['\n'])).dropWhile isPyWs = ds ++ ['\n'] := by
    rw [List.dropWhile_cons, if_pos (by decide)]
    match ds, hne with
    | d :: t, _ =>
      rw [List.cons_append, List.dropWhile_cons, if_neg]
      rw [digit_not_pyws (h d (List.mem_cons_self ..))]
      simp
  rw [pyStrip, hfront, List.reverse_append]
  simp only [List.reverse_singleton, List.singleton_append, List.dropWhile_cons,
    if_pos (show isPyWs '\n' = true by decide)]
  rw [dropWhile_digits (fun c hc => h c (List.mem_reverse.mp hc)), List.reverse_reverse]

theorem pyInt_natDigits (L : Nat) : pyInt (natDigits L) = some (L : Int) := by
  have h := @parseIntTok_natDigits [] L rfl
  rw [List.append_nil] at h
  simp [pyInt, h]

theorem natDigits_no_colon (n : Nat) : ∀ c ∈ natDigits n, ¬(c = ':') := by
  intro c hc
  have := natDigits_digits n c hc
  exact digit_ne this ':' (by decide)

theorem natDigits_no_nl (n : Nat) : ∀ c ∈ natDigits n, ¬(c = '\n') := by
  intro c hc
  have := natDigits_digits n c hc
  exact digit_ne this '\n' (by decide)

theorem startsWithCL_header (x : List Char) :
    startsWithCL ("Content-Length: ".data ++ x) = true := by
  rw [startsWithCL, List.isPrefixOf_iff_prefix]
  refine ⟨' ' :: x, ?_⟩
  rw [show "Content-Length: ".data = "Content-Length:".data ++ [' '] from rfl]
  simp

theorem contentLenOf_header (L : Nat) :
    contentLenOf ("Content-Length: ".data ++ natDigits L ++ ['\n']) = some L := by
  have hsh : "Content-Length: ".data ++ natDigits L ++ ['\n'] =
      "Content-Length".data ++ ':' :: (' ' :: (natDigits L ++ ['\n'])) := by
    rw [show "Content-Length: ".data = "Content-Length".data ++ [':', ' '] from rfl]
    simp
  have hsplit : splitCols ("Content-Length".data ++ ':' :: (' ' :: (natDigits L ++ ['\n']))) =
      ["Content-Length".data, ' ' :: (natDigits L ++ ['\n'])] := by
    rw [splitCols_split (by decide), splitCols_nocolon]
    intro c hc
    rw [List.mem_cons, List.mem_append, List.mem_singleton] at hc
    rcases hc with rfl | hc | rfl
    · decide
    · exact natDigits_no_colon L c hc
    · decide
  rw [hsh]
  have h1 : pyStrip (' ' :: (natDigits L ++ ['\n'])) = natDigits L :=
    pyStrip_digits (natDigits_ne_nil L) (natDigits_digits L)
  simp only [contentLenOf, hsplit, List.getElem?_cons_succ, List.getElem?_cons_zero,
    h1, pyInt_natDigits]
  norm_num

theorem headerLoopF_succ (fuel : Nat) (cs : List Char) :
    headerLoopF (fuel + 1) cs =
      (if cs = [] then none
       else
        let p := takeLine cs
        if startsWithCL p.1 then
          match contentLenOf p.1 with
          | none => none
          | some len =>
            let q := takeLine p.2
            match loads (q.2.take len) with
            | some m => some (m, q.2.drop len)
            | none => none
        else headerLoopF fuel p.2) := rfl

/-- read_message inverts send_message: on the text-mode translated stream
consisting of a framed message followed by anything else, the reader
recovers exactly the message and leaves the remainder unread. -/
theorem readMessage_send (m : Json) (extra : List Char) :
    readMessageChars (univNl (sendMessageChars m ++ extra)) = some (m, univNl extra) := by
  have hprint := dumps_printable m
  have hhdr : ∀ c ∈ "Content-Length: ".data, 32 ≤ c.toNat ∧ c.toNat ≤ 126 := by decide
  have hdig := natDigits_printable (dumpsChars m).length
  have hAB : ∀ c ∈ "Content-Length: ".data ++ natDigits (dumpsChars m).length,
      32 ≤ c.toNat ∧ c.toNat ≤ 126 := by
    intro c hc
    rw [List.mem_append] at hc
    rcases hc with hc | hc
    · exact hhdr c hc
    · exact hdig c hc
  have htr : univNl (sendMessageChars m ++ extra) =
      ("Content-Length: ".data ++ natDigits (dumpsChars m).length) ++
        ('\n' :: '\n' :: (dumpsChars m ++ univNl extra)) := by
    have hshape : sendMessageChars m ++ extra =
        ("Content-Length: ".data ++ natDigits (dumpsChars m).length) ++
          ('\r' :: '\n' :: '\r' :: '\n' :: (dumpsChars m ++ extra)) := by
      simp [sendMessageChars]
    rw [hshape, univNl_append_printable hAB, univNl_crlf, univNl_crlf,
      univNl_append_printable hprint]
  have hne : ("Content-Length: ".data ++ natDigits (dumpsChars m).length) ++
      ('\n' :: '\n' :: (dumpsChars m ++ univNl extra)) ≠ [] := by simp
  have hnl : ∀ c ∈ "Content-Length: ".data ++ natDigits (dumpsChars m).length, ¬(c = '\n') :=
    fun c hc => printable_ne_nl (hAB c hc)
  have hstarts : startsWithCL (("Content-Length: ".data ++
      natDigits (dumpsChars m).length) ++ ['\n']) = true := by
    rw [List.append_assoc]
    exact startsWithCL_header _
  have hclen := contentLenOf_header (dumpsChars m).length
  rw [htr, readMessageChars]
  rw [headerLoopF_succ, if_neg hne, takeLine_no_nl hnl]
  dsimp only
  rw [hstarts, if_pos rfl, hclen]
  dsimp only
  rw [takeLine_cons_nl]
  dsimp only
  rw [List.take_left, loads_dumps]
  dsimp only
  rw [List.drop_left]

/-! ## Correlation-loop lemmas. -/

theorem sendMessageChars_ne_nil (m : Json) : sendMessageChars m ≠ [] := by
  rw [sendMessageChars, show "Content-Length: ".data = 'C' :: "ontent-Length: ".data from rfl]
  simp

theorem recvLoop_nil (rid : Int) : recvLoop rid [] = (.endOfStream, []) := rfl

/-- Messages that are objects but neither a window/logMessage nor carry the
awaited id are skipped: the loop forwards them to the side channel in order
and finishes however it finishes on the remaining stream. -/
theorem recvLoop_skips (rid : Int) (pre tail : List Json)
    (hpre : ∀ m ∈ pre, ∃ kvs, m = Json.obj kvs ∧
      (isLogMsg kvs = true ∨ idMatches kvs rid = false)) :
    recvLoop rid (pre ++ tail) =
      ((recvLoop rid tail).1, pre ++ (recvLoop rid tail).2) := by
  induction pre with
  | nil => simp
  | cons m pre2 ih =>
    obtain ⟨kvs, rfl, hcase⟩ := hpre _ (List.mem_cons_self ..)
    have htail := ih (fun x hx => hpre x (List.mem_cons_of_mem _ hx))
    rw [List.cons_append]
    by_cases hlog : isLogMsg kvs = true
    · simp only [recvLoop, if_pos hlog, htail, List.cons_append]
    · have hid : idMatches kvs rid = false := by
        rcases hcase with h | h
        · exact absurd h hlog
        · exact h
      simp only [recvLoop, if_neg hlog, hid, Bool.false_eq_true, if_false, htail,
        List.cons_append]

/-- A message whose id equals the awaited request id and which carries no
method field is returned immediately. -/
theorem recvLoop_answer (rid : Int) (post : List Json) (kvs : List (List Char × Json))
    (hm : dictGet kvs "method".data = none)
    (hid : dictGet kvs "id".data = some (.int rid)) :
    recvLoop rid (Json.obj kvs :: post) = (.answered (Json.obj kvs), []) := by
  have hlog : isLogMsg kvs = false := by
    rw [isLogMsg, hm]
  have hmatch : idMatches kvs rid = true := by
    rw [idMatches, hid]
    simp [pyEqInt]
  simp only [recvLoop, hlog, Bool.false_eq_true, if_false, hmatch, if_true]

/-! ## Request-id lemmas. -/

theorem allocIds_mem (n : Nat) : ∀ (s : Int), ∀ x ∈ allocIds s n, s < x := by
  induction n with
  | zero =>
    intro s x hx
    cases hx
  | succ k ih =>
    intro s x hx
    rw [allocIds] at hx
    simp only [nextId, List.mem_cons] at hx
    rcases hx with rfl | hx
    · omega
    · have := ih (s + 1) x hx
      omega

theorem allocIds_chain (n : Nat) : ∀ (s : Int), (allocIds s n).Pairwise (· < ·) := by
  induction n with
  | zero =>
    intro s
    exact List.Pairwise.nil
  | succ k ih =>
    intro s
    rw [allocIds]
    simp only [nextId]
    exact List.Pairwise.cons (fun x hx => allocIds_mem k (s + 1) x hx) (ih (s + 1))

/-! ## Timeout-wait lemma. -/

/-- Once the stream has reached end-of-file while the process stays alive,
the loop does take its timeout exit, at an elapsed time strictly above the
timeout: readline returns the empty string immediately and each iteration
sleeps 100 ms. End-of-file — not a live silent server with its pipe open —
is the silent scenario in which the timeout branch actually fires. -/
theorem eofWait_times_out (alive : Nat → Bool) (timeoutMs : Nat)
    (ha : ∀ j, alive j = true) :
    ∀ (k t i : Nat), timeoutMs + 1 - t ≤ k →
    ∃ u, eofWait alive timeoutMs i t = .timedOut u ∧ timeoutMs < u := by
  intro k
  induction k with
  | zero =>
    intro t i hk
    have ht : timeoutMs < t := by omega
    exact ⟨t, by rw [eofWait, dif_pos ht], ht⟩
  | succ n ih =>
    intro t i hk
    by_cases ht : timeoutMs < t
    · exact ⟨t, by rw [eofWait, dif_pos ht], ht⟩
    · obtain ⟨u, hu, hub⟩ := ih (t + 100) (i + 1) (by omega)
      refine ⟨u, ?_, hub⟩
      rw [eofWait, dif_neg ht, if_neg (by simp [ha i])]
      exact hu

/-! ## The claims. -/

/-- C1: the send_request read loop returns exactly the first Response whose
id equals the allocated request id; every Notification (a message carrying a
method and no matching id) observed before it is forwarded to the side
channel — here the second component of the loop's result, in order — and
reading continues; no Notification is ever the returned result (the returned
message is the Response, which lies outside the skipped prefix). -/
theorem c1_correlated_receive (rid : Int) (pre post : List Json) (resp : Json)
    (hpre : ∀ m ∈ pre, ∃ kvs, m = Json.obj kvs ∧ (dictGet kvs "method".data).isSome = true ∧
      (∀ v, dictGet kvs "id".data = some v → pyEqInt v rid = false))
    (hresp : ∃ kvs, resp = Json.obj kvs ∧ dictGet kvs "method".data = none ∧
      dictGet kvs "id".data = some (.int rid)) :
    recvLoop rid (pre ++ resp :: post) = (.answered resp, pre) ∧ resp ∉ pre := by
  obtain ⟨kvs, rfl, hm, hid⟩ := hresp
  have hpre2 : ∀ m ∈ pre, ∃ kvs2, m = Json.obj kvs2 ∧
      (isLogMsg kvs2 = true ∨ idMatches kvs2 rid = false) := by
    intro m hm2
    obtain ⟨kvs2, rfl, _, hnid⟩ := hpre m hm2
    refine ⟨kvs2, rfl, Or.inr ?_⟩
    rw [idMatches]
    match hk : dictGet kvs2 "id".data with
    | none => rfl
    | some v => exact hnid v hk
  constructor
  · rw [recvLoop_skips rid pre _ hpre2, recvLoop_answer rid post kvs hm hid]
    simp
  · intro hmem
    obtain ⟨kvs2, heq, hsome, _⟩ := hpre _ hmem
    injection heq with hkk
    subst hkk
    rw [hm] at hsome
    simp at hsome

theorem c1_correlated_receive_witness :
    recvLoop 7 ([Json.obj [("method".data, Json.str "window/logMessage".data)]] ++
        Json.obj [("id".data, Json.int 7)] :: []) =
      (.answered (Json.obj [("id".data, Json.int 7)]),
        [Json.obj [("method".data, Json.str "window/logMessage".data)]]) ∧
    Json.obj [("id".data, Json.int 7)] ∉
      [Json.obj [("method".data, Json.str "window/logMessage".data)]] :=
  c1_correlated_receive 7 _ _ _
    (by
      intro m hm
      rw [List.mem_singleton] at hm
      subst hm
      exact ⟨_, rfl, rfl, fun v hv => by simp [dictGet] at hv⟩)
    ⟨[("id".data, Json.int 7)], rfl, by simp [dictGet], by simp [dictGet]⟩

/-- C2: for every JSON-serializable message m, decoding the text-mode stream
produced by writing m (Content-Length header, CRLF CRLF, JSON payload,
subject to the reader's universal-newline translation) yields exactly m,
with nothing left over. -/
theorem c2_frame_round_trip (m : Json) :
    readMessageChars (univNl (sendMessageChars m)) = some (m, []) := by
  have h := readMessage_send m []
  rw [List.append_nil, show univNl ([] : List Char) = [] from rfl] at h
  exact h

/-- C3: send_message writes exactly the header "Content-Length: L", CRLF
CRLF, then the serialized payload and nothing after it, where the declared
L — computed in the code as the character count len(json_str) — equals the
UTF-8 byte length of the payload, because the ensure_ascii serialization is
pure ASCII. -/
theorem c3_send_message_layout (m : Json) :
    sendMessageChars m = "Content-Length: ".data ++
      natDigits (utf8Len (dumpsChars m)) ++
      '\r' :: '\n' :: '\r' :: '\n' :: dumpsChars m := by
  rw [sendMessageChars, utf8Len_ascii (dumps_printable m)]

/-- C4: the ids allocated by N consecutive request-sending calls from any
counter state are strictly increasing and pairwise distinct — in particular
no id is ever reused within the session. -/
theorem c4_request_ids_strictly_increasing (s : Int) (n : Nat) :
    (allocIds s n).Pairwise (· < ·) ∧ (allocIds s n).Pairwise (· ≠ ·) :=
  ⟨allocIds_chain n s, (allocIds_chain n s).imp (fun h => ne_of_lt h)⟩

/-- C5: if the stream ends (readline returns no data) before any message
matching the request is seen, send_request fails via its end-of-stream exit
(the `if not header: return None` branch — the failure the design document
labels ServerDiedError), after having skipped every observed message. -/
theorem c5_eof_yields_failure (rid : Int) (stream : List Json)
    (h : ∀ m ∈ stream, ∃ kvs, m = Json.obj kvs ∧
      (isLogMsg kvs = true ∨ idMatches kvs rid = false)) :
    recvLoop rid stream = (.endOfStream, stream) := by
  have h2 := recvLoop_skips rid stream [] h
  rw [List.append_nil] at h2
  rw [h2, recvLoop_nil]
  simp

theorem c5_eof_yields_failure_witness :
    recvLoop 1 [Json.obj [("method".data, Json.str "window/logMessage".data)]] =
      (.endOfStream, [Json.obj [("method".data, Json.str "window/logMessage".data)]]) :=
  c5_eof_yields_failure 1 _
    (by
      intro m hm
      rw [List.mem_singleton] at hm
      subst hm
      exact ⟨_, rfl, Or.inl (by simp [isLogMsg, dictGet])⟩)

/-- C6: the claim fails on the code. Against a live server that never
responds but keeps its stdout open — no line ever arrives and the stream is
never closed — the blocking readline call at test_lsp_client.py line 152
never returns, so for every timeout the read_message wait loop ends up
permanently stuck inside the read and never reaches the timeout check
again: the TIMEOUT failure the claim requires is never reported, at any
elapsed time. -/
theorem c6_silent_server_blocks (timeoutMs : Nat) :
    openPipeWait (fun _ => true) timeoutMs [] none 0 0 = .blockedInRead ∧
    ∀ t, openPipeWait (fun _ => true) timeoutMs [] none 0 0 ≠ .timedOut t := by
  have h : openPipeWait (fun _ => true) timeoutMs [] none 0 0 = .blockedInRead := by
    rw [openPipeWait]
    simp
  refine ⟨h, fun t ht => ?_⟩
  rw [h] at ht
  exact BlockingOutcome.noConfusion ht

/-- C7: close() always succeeds, leaves the child process not running, and a
second close() on the resulting state succeeds and changes nothing — the
Popen-level poll guard makes signalling a dead process a no-op, and the
kill-after-TimeoutExpired fallback guarantees the process is gone. -/
theorem c7_close_idempotent_and_final (p : Proc) :
    ∃ q, closeClient p = .ok q ∧ q.alive = false ∧ closeClient q = .ok q := by
  match p with
  | ⟨true, e, true⟩ => exact ⟨⟨false, e, true⟩, rfl, rfl, rfl⟩
  | ⟨true, e, false⟩ => exact ⟨⟨false, e, false⟩, rfl, rfl, rfl⟩
  | ⟨false, e, tr⟩ => exact ⟨⟨false, e, tr⟩, rfl, rfl, rfl⟩

/-- C8: if the child process has exited when the constructor's grace-period
poll runs, construction fails with the RuntimeError the design document
labels StartupError, carrying the observed exit code, and nothing has been
written to the server's stdin. -/
theorem c8_startup_grace_failure (p : Proc) (h : p.alive = false) :
    clientInit p = (.error (.exitedDuringGrace p.exitCode), []) := by
  simp [clientInit, pollP, h]

theorem c8_startup_grace_failure_witness :
    clientInit ⟨false, 3, true⟩ = (.error (.exitedDuringGrace 3), []) :=
  c8_startup_grace_failure ⟨false, 3, true⟩ rfl

/-- C9 counterexample: on a client that was never initialized (fresh
request-id counter), execute_command does not fail with any state error —
it writes a non-empty framed request straight to the server, refuting the
claim that calling it before initialization fails with InvalidStateError
rather than sending anything. -/
theorem c9_counterexample :
    (executeCommandOp ⟨0⟩ "bkmr.getSnippet".data [] []).2.1 ≠ [] :=
  sendMessageChars_ne_nil _

/-- C9 amended: the clients keep no session state machine at all;
execute_command and send_notification build and write their framed message
unconditionally from any counter state — there is no InvalidStateError and
no path that refuses to send. -/
theorem c9_no_state_check (rid : Int) (cmd : List Char) (args : List Json)
    (msgs : List Json) (method : List Char) (params : Json) :
    executeCommandOp ⟨rid⟩ cmd args msgs =
      (⟨rid + 1⟩, sendMessageChars (reqMessage (rid + 1) "workspace/executeCommand".data
        (.obj [("command".data, .str cmd), ("arguments".data, .arr args)])),
        recvLoop (rid + 1) msgs) ∧
    (executeCommandOp ⟨rid⟩ cmd args msgs).2.1 ≠ [] ∧
    sendNotificationOp method params ≠ [] :=
  ⟨rfl, sendMessageChars_ne_nil _, sendMessageChars_ne_nil _⟩

/-- C10: read_message hands back the first fully framed message with no id
comparison, and initialize / completion / shutdown each do exactly one such
read (modelled by singleReadResult); so when the server emits a notification
before the real response, the operation returns the notification, and the
response — still sitting unread in the stream — is never the operation's
result. -/
theorem c10_single_read_returns_first (n r : Json)
    (hn : ∃ kvs, n = Json.obj kvs ∧ (dictGet kvs "method".data).isSome = true ∧
      dictGet kvs "id".data = none)
    (hnr : ¬(n = r)) :
    singleReadResult (univNl (sendMessageChars n ++ sendMessageChars r)) = some n ∧
    readMessageChars (univNl (sendMessageChars n ++ sendMessageChars r)) =
      some (n, univNl (sendMessageChars r)) ∧
    ¬(singleReadResult (univNl (sendMessageChars n ++ sendMessageChars r)) = some r) := by
  have h := readMessage_send n (sendMessageChars r)
  refine ⟨by rw [singleReadResult, h]; rfl, h, ?_⟩
  rw [singleReadResult, h]
  intro he
  apply hnr
  simpa using he

theorem c10_single_read_returns_first_witness :
    singleReadResult (univNl (sendMessageChars
        (Json.obj [("method".data, Json.str "window/logMessage".data)]) ++
      sendMessageChars (Json.obj [("id".data, Json.int 1)]))) =
      some (Json.obj [("method".data, Json.str "window/logMessage".data)]) ∧
    readMessageChars (univNl (sendMessageChars
        (Json.obj [("method".data, Json.str "window/logMessage".data)]) ++
      sendMessageChars (Json.obj [("id".data, Json.int 1)]))) =
      some (Json.obj [("method".data, Json.str "window/logMessage".data)],
        univNl (sendMessageChars (Json.obj [("id".data, Json.int 1)]))) ∧
    ¬(singleReadResult (univNl (sendMessageChars
        (Json.obj [("method".data, Json.str "window/logMessage".data)]) ++
      sendMessageChars (Json.obj [("id".data, Json.int 1)]))) =
        some (Json.obj [("id".data, Json.int 1)])) :=
  c10_single_read_returns_first _ _
    ⟨[("method".data, Json.str "window/logMessage".data)], rfl, rfl, by simp [dictGet]⟩
    (by
      intro he
      simp only [Json.obj.injEq, List.cons.injEq, Prod.mk.injEq] at he
      simp at he)

end BkmrLsp
